import Mathlib

/-!
A shallow embedding of the liquidation-waterfall engine of the
equity-analyzer repository (`src/models.py`: dataclasses `FundingRound`,
`CapTable`, `ExitScenario`, `ScenarioResult` and class `EquityCalculator`),
together with theorems settling the specification's claims about it.

Python `float` values are modelled by `ℚ` and Python `int` values by `ℤ`.
Python's `sorted(..., key=..., reverse=True)` is a stable sort by
descending key; it is modelled here by a stable insertion sort, whose
resulting order is also characterised below as a concatenation of
priority groups.  The
`preference_payouts` dict is modelled by a total function `String → ℚ`
defaulting to `0` (the code only ever reads the dict through
`.get(name, 0)`), together with a ghost `history` field recording each
write `preference_payouts[round.name] = preference_payout` in sequence;
the ghost field is needed to state the specification's accounting
(conservation) properties and does not influence the computation.

The one division the code leaves unguarded,
`round.shares_issued / self.cap_table.total_shares` in Phase 2, gets two
models: the total model `calculate_scenario` (division by zero yields `0`,
Lean's field convention) and a fallible model `calculate_scenarioE` in
which that division with a zero denominator produces
`Except.error "division by zero"`, mirroring Python's `ZeroDivisionError`.
The guarded divisions of Phase 3 sit under conditionals that make their
denominators provably nonzero, so they are modelled by plain division.
-/

/-- The `FundingRound` dataclass of `src/models.py`. -/
structure FundingRound where
  name : String
  shares_issued : ℤ
  capital_raised : ℚ
  liquidation_multiple : ℚ
  is_participating : Bool
deriving DecidableEq

/-- `FundingRound.liquidation_preference`:
`self.capital_raised * self.liquidation_multiple`. -/
def FundingRound.liquidation_preference (r : FundingRound) : ℚ :=
  r.capital_raised * r.liquidation_multiple

/-- The `CapTable` dataclass of `src/models.py`. -/
structure CapTable where
  total_shares : ℤ
  your_options : ℤ
  strike_price : ℚ
  funding_rounds : List FundingRound
deriving DecidableEq

/-- `CapTable.total_preferred_shares`:
`sum(round.shares_issued for round in self.funding_rounds)`. -/
def CapTable.total_preferred_shares (ct : CapTable) : ℤ :=
  (ct.funding_rounds.map (fun r => r.shares_issued)).sum

/-- `CapTable.common_shares`: `self.total_shares - self.total_preferred_shares`. -/
def CapTable.common_shares (ct : CapTable) : ℤ :=
  ct.total_shares - ct.total_preferred_shares

/-- The `ExitScenario` dataclass of `src/models.py`. -/
structure ExitScenario where
  name : String
  exit_valuation : ℚ
deriving DecidableEq

/-- The `ScenarioResult` dataclass of `src/models.py`. -/
structure ScenarioResult where
  scenario_name : String
  exit_valuation : ℚ
  option_value : ℚ
  price_per_share : ℚ
  common_proceeds : ℚ
  error : Option String := none
deriving DecidableEq

/-- `ScenarioResult.value_per_option`: the property returns
`self.price_per_share`. -/
def ScenarioResult.value_per_option (r : ScenarioResult) : ℚ :=
  r.price_per_share

/-- The sort key of `calculate_scenario`'s round ordering:
`['Seed', 'Series A', 'Series B', 'Series C'].index(x.name)` when the name
is in that list, `999` otherwise. -/
def roundKey (r : FundingRound) : ℕ :=
  if r.name = "Seed" then 0
  else if r.name = "Series A" then 1
  else if r.name = "Series B" then 2
  else if r.name = "Series C" then 3
  else 999

/-- Stable insertion of a round into a list already sorted by descending
`roundKey`: the new round goes after every element with a strictly larger
key and before the rest, so earlier list positions win ties. -/
def insertDesc (r : FundingRound) : List FundingRound → List FundingRound
  | [] => [r]
  | s :: rest => if roundKey r < roundKey s then s :: insertDesc r rest else r :: s :: rest

/-- Model of `sorted(self.cap_table.funding_rounds, key=..., reverse=True)`:
Python's sort is stable, and with `reverse=True` it orders by descending
key while preserving the original order of equal-key elements; a stable
insertion sort computes exactly that ordering. -/
def sortedRounds : List FundingRound → List FundingRound
  | [] => []
  | r :: rest => insertDesc r (sortedRounds rest)

/-- Running state of Phase 1 of `calculate_scenario`: `remaining_proceeds`,
the `preference_payouts` dict (as a total function defaulting to `0`), the
`participating_shareholders` list of `(round name, shares)` entries, and
the ghost `history` trace of dict writes `(round name, payout)`. -/
structure Phase1State where
  remaining : ℚ
  payouts : String → ℚ
  participating : List (String × ℤ)
  history : List (String × ℚ)

/-- Python's two-argument `min` on floats, written out as a conditional so
that it evaluates by kernel reduction; `min_def` identifies it with `min`. -/
def pymin (a b : ℚ) : ℚ :=
  if a ≤ b then a else b

/-- One iteration of the Phase 1 loop of `calculate_scenario`: rounds with
nonpositive shares or capital are skipped; otherwise the preference payout
`min(remaining_proceeds, round.liquidation_preference)` is deducted,
recorded under the round's name, and participating rounds are registered. -/
def phase1Step (st : Phase1State) (r : FundingRound) : Phase1State :=
  if 0 < r.shares_issued ∧ 0 < r.capital_raised then
    { remaining := st.remaining - pymin st.remaining r.liquidation_preference
      payouts := Function.update st.payouts r.name (pymin st.remaining r.liquidation_preference)
      participating :=
        if r.is_participating = true then st.participating ++ [(r.name, r.shares_issued)]
        else st.participating
      history := st.history ++ [(r.name, pymin st.remaining r.liquidation_preference)] }
  else st

/-- The initial Phase 1 state: all proceeds remaining, empty dict, no
participating shareholders. -/
def initPhase1 (V : ℚ) : Phase1State :=
  { remaining := V, payouts := fun _ => 0, participating := [], history := [] }

/-- The whole Phase 1 loop over a round list. -/
def runPhase1 (rounds : List FundingRound) (V : ℚ) : Phase1State :=
  rounds.foldl phase1Step (initPhase1 V)

/-- Phase 1 of `calculate_scenario`, run over the priority-sorted rounds. -/
def scenarioPhase1 (ct : CapTable) (V : ℚ) : Phase1State :=
  runPhase1 (sortedRounds ct.funding_rounds) V

/-- `participating_preferred_shares`:
`sum(p['shares'] for p in participating_shareholders)`. -/
def participatingShares (ct : CapTable) (V : ℚ) : ℤ :=
  ((scenarioPhase1 ct V).participating.map (fun p => p.2)).sum

/-- Running state of Phase 2 of `calculate_scenario`: `remaining_proceeds`
and `total_participating_shares`. -/
structure Phase2State where
  remaining : ℚ
  total_participating_shares : ℤ
deriving DecidableEq

/-- One iteration of the Phase 2 loop of `calculate_scenario`: an active
non-participating round whose conversion value
`(round.shares_issued / self.cap_table.total_shares) * exit_valuation`
strictly exceeds `preference_payouts.get(round.name, 0)` converts: its
looked-up preference value is added back to `remaining_proceeds` and its
shares join `total_participating_shares`. -/
def phase2Step (ct : CapTable) (V : ℚ) (payouts : String → ℚ)
    (st : Phase2State) (r : FundingRound) : Phase2State :=
  if 0 < r.shares_issued ∧ 0 < r.capital_raised ∧ r.is_participating = false then
    if payouts r.name < (r.shares_issued : ℚ) / (ct.total_shares : ℚ) * V then
      { remaining := st.remaining + payouts r.name
        total_participating_shares := st.total_participating_shares + r.shares_issued }
    else st
  else st

/-- Phase 2 of `calculate_scenario`: the conversion loop over the
priority-sorted rounds, starting from Phase 1's remaining proceeds and the
pool `common_shares + participating_preferred_shares`. -/
def scenarioPhase2 (ct : CapTable) (V : ℚ) : Phase2State :=
  (sortedRounds ct.funding_rounds).foldl
    (phase2Step ct V (scenarioPhase1 ct V).payouts)
    { remaining := (scenarioPhase1 ct V).remaining
      total_participating_shares := ct.common_shares + participatingShares ct V }

/-- The conversion event of a single round, evaluated independently of any
Phase 2 state: `some (name, looked-up preference value, shares)` exactly
when the round is active, non-participating and its conversion value
strictly exceeds the preference value looked up under its name. -/
def convertedEvent (ct : CapTable) (V : ℚ) (payouts : String → ℚ)
    (r : FundingRound) : Option (String × ℚ × ℤ) :=
  if 0 < r.shares_issued ∧ 0 < r.capital_raised ∧ r.is_participating = false ∧
      payouts r.name < (r.shares_issued : ℚ) / (ct.total_shares : ℚ) * V then
    some (r.name, payouts r.name, r.shares_issued)
  else none

/-- All conversion events of a round list, each decided independently. -/
def phase2Events (ct : CapTable) (V : ℚ) (payouts : String → ℚ)
    (l : List FundingRound) : List (String × ℚ × ℤ) :=
  l.filterMap (convertedEvent ct V payouts)

/-- The conversion events of a full scenario computation. -/
def scenarioEvents (ct : CapTable) (V : ℚ) : List (String × ℚ × ℤ) :=
  phase2Events ct V (scenarioPhase1 ct V).payouts (sortedRounds ct.funding_rounds)

/-- Sum of all Phase 1 preference payouts as recorded by the loop (the
sequence of dict writes, so a round processed later under a duplicate name
does not erase an earlier round's payout from this total). -/
def prefPayoutTotal (ct : CapTable) (V : ℚ) : ℚ :=
  ((scenarioPhase1 ct V).history.map (fun e => e.2)).sum

/-- Sum of the preference values refunded to `remaining_proceeds` by the
rounds that convert in Phase 2. -/
def refundTotal (ct : CapTable) (V : ℚ) : ℚ :=
  ((scenarioEvents ct V).map (fun e => e.2.1)).sum

/-- Total number of shares added to the eligible pool by Phase 2
conversions. -/
def convertedSharesTotal (ct : CapTable) (V : ℚ) : ℤ :=
  ((scenarioEvents ct V).map (fun e => e.2.2)).sum

/-- `price_per_participating_share` of Phase 3: remaining proceeds after
conversions divided by the eligible-shares pool. -/
def eligiblePrice (ct : CapTable) (V : ℚ) : ℚ :=
  (scenarioPhase2 ct V).remaining / ((scenarioPhase2 ct V).total_participating_shares : ℚ)

/-- Sum of the Phase 3 payouts `price_per_participating_share * shares`
made to the participating preferred rounds registered in Phase 1. -/
def participationPayoutTotal (ct : CapTable) (V : ℚ) : ℚ :=
  ((scenarioPhase1 ct V).participating.map
    (fun p => eligiblePrice ct V * (p.2 : ℚ))).sum

/-- Sum of the Phase 3 payouts `price_per_participating_share * shares`
made to the rounds that converted in Phase 2. -/
def conversionPayoutTotal (ct : CapTable) (V : ℚ) : ℚ :=
  ((scenarioEvents ct V).map (fun e => eligiblePrice ct V * (e.2.2 : ℚ))).sum

/-- Phase 3 common proceeds from a Phase 2 state:
`remaining / total_participating_shares * common_shares` when the pool is
positive, the raw remaining proceeds otherwise. -/
def commonProceedsOf (ct : CapTable) (st2 : Phase2State) : ℚ :=
  if 0 < st2.total_participating_shares then
    st2.remaining / (st2.total_participating_shares : ℚ) * (ct.common_shares : ℚ)
  else st2.remaining

/-- `price_per_common_share`: `common_proceeds / common_shares` guarded by
`common_shares > 0`, else `0`. -/
def pricePerCommonShareOf (ct : CapTable) (st2 : Phase2State) : ℚ :=
  if 0 < ct.common_shares then commonProceedsOf ct st2 / (ct.common_shares : ℚ) else 0

/-- The error result returned when `common_shares <= 0`. -/
def errorResult (s : ExitScenario) : ScenarioResult :=
  { scenario_name := s.name
    exit_valuation := s.exit_valuation
    option_value := 0
    price_per_share := 0
    common_proceeds := 0
    error := some "Preferred shares exceed total shares" }

/-- `EquityCalculator.calculate_scenario` of `src/models.py` (total model:
the unguarded Phase 2 division uses the `x / 0 = 0` convention). -/
def calculate_scenario (ct : CapTable) (s : ExitScenario) : ScenarioResult :=
  if ct.common_shares ≤ 0 then errorResult s
  else
    { scenario_name := s.name
      exit_valuation := s.exit_valuation
      option_value :=
        max 0 (pricePerCommonShareOf ct (scenarioPhase2 ct s.exit_valuation) - ct.strike_price)
          * (ct.your_options : ℚ)
      price_per_share := pricePerCommonShareOf ct (scenarioPhase2 ct s.exit_valuation)
      common_proceeds := commonProceedsOf ct (scenarioPhase2 ct s.exit_valuation)
      error := none }

/-- `EquityCalculator.calculate_multiple_scenarios` of `src/models.py`:
appends one result per scenario with positive exit valuation. -/
def calculate_multiple_scenarios (ct : CapTable) (scenarios : List ExitScenario) :
    List ScenarioResult :=
  scenarios.foldl
    (fun results s =>
      if 0 < s.exit_valuation then results ++ [calculate_scenario ct s] else results)
    []

/-- Fallible variant of the Phase 2 iteration: the division
`round.shares_issued / self.cap_table.total_shares` raises (Python
`ZeroDivisionError`) when `total_shares` is zero. -/
def phase2StepE (ct : CapTable) (V : ℚ) (payouts : String → ℚ)
    (st : Phase2State) (r : FundingRound) : Except String Phase2State :=
  if 0 < r.shares_issued ∧ 0 < r.capital_raised ∧ r.is_participating = false then
    if (ct.total_shares : ℚ) = 0 then Except.error "division by zero"
    else
      Except.ok
        (if payouts r.name < (r.shares_issued : ℚ) / (ct.total_shares : ℚ) * V then
          { remaining := st.remaining + payouts r.name
            total_participating_shares := st.total_participating_shares + r.shares_issued }
        else st)
  else Except.ok st

/-- Fallible Phase 2 loop. -/
def phase2RunE (ct : CapTable) (V : ℚ) : Except String Phase2State :=
  (sortedRounds ct.funding_rounds).foldlM
    (phase2StepE ct V (scenarioPhase1 ct V).payouts)
    { remaining := (scenarioPhase1 ct V).remaining
      total_participating_shares := ct.common_shares + participatingShares ct V }

/-- `calculate_scenario` in the fallible model: identical to the total
model except that the unguarded Phase 2 division can raise. -/
def calculate_scenarioE (ct : CapTable) (s : ExitScenario) :
    Except String ScenarioResult :=
  if ct.common_shares ≤ 0 then Except.ok (errorResult s)
  else
    match phase2RunE ct s.exit_valuation with
    | Except.error e => Except.error e
    | Except.ok st2 =>
      Except.ok
        { scenario_name := s.name
          exit_valuation := s.exit_valuation
          option_value :=
            max 0 (pricePerCommonShareOf ct st2 - ct.strike_price) * (ct.your_options : ℚ)
          price_per_share := pricePerCommonShareOf ct st2
          common_proceeds := commonProceedsOf ct st2
          error := none }

/-- The active participating rounds of a list, as registered by Phase 1:
`(name, shares)` for each round with positive shares and capital whose
participation flag is set, in list order. -/
def participants (l : List FundingRound) : List (String × ℤ) :=
  l.filterMap (fun r =>
    if 0 < r.shares_issued ∧ 0 < r.capital_raised ∧ r.is_participating = true then
      some (r.name, r.shares_issued)
    else none)

/-- The rounds of a list whose sort key equals `k`, in original order. -/
def filterKey (k : ℕ) (l : List FundingRound) : List FundingRound :=
  l.filter (fun r => roundKey r == k)

/-- Example table for the conservation witness: one non-participating Seed
round that elects to convert. -/
def exampleTableC1 : CapTable :=
  { total_shares := 10, your_options := 1, strike_price := 0
    funding_rounds := [⟨"Seed", 2, 2, 1, false⟩] }

/-- Example table for the round-ordering counterexample: a known "Seed"
round followed by a round with the unrecognised name "Angel". -/
def exampleTableC2 : CapTable :=
  { total_shares := 10, your_options := 0, strike_price := 0
    funding_rounds := [⟨"Seed", 1, 10, 1, false⟩, ⟨"Angel", 1, 10, 1, false⟩] }

/-- Example table for the conversion counterexample: two non-participating
rounds sharing the name "Seed", so the `preference_payouts` dict entry of
the first is overwritten by the second. -/
def exampleTableC3 : CapTable :=
  { total_shares := 100, your_options := 0, strike_price := 0
    funding_rounds := [⟨"Seed", 30, 20, 1, false⟩, ⟨"Seed", 5, 4, 1, false⟩] }

/-- Example table for the invalid-configuration witness: preferred shares
exceed total shares. -/
def exampleTableC4 : CapTable :=
  { total_shares := 5, your_options := 1, strike_price := 1
    funding_rounds := [⟨"Seed", 10, 1, 1, false⟩] }

/-- Example table for the arithmetic-fault counterexample: zero total
shares with a negative share count keeping `common_shares` positive, so
the unguarded Phase 2 division divides by zero. -/
def exampleTableC5 : CapTable :=
  { total_shares := 0, your_options := 0, strike_price := 0
    funding_rounds := [⟨"Series A", 5, 1, 1, false⟩, ⟨"Seed", -10, 1, 1, false⟩] }

/-- Example table for the arithmetic-safety witness: well-formed rounds
with non-negative share counts. -/
def exampleTableC5w : CapTable :=
  { total_shares := 10, your_options := 1, strike_price := 0
    funding_rounds := [⟨"Seed", 2, 2, 1, false⟩, ⟨"Series A", 3, 4, 1, true⟩] }

/-- Example table for the option-value counterexample: a negative option
count makes the returned total option value negative. -/
def exampleTableC6 : CapTable :=
  { total_shares := 1, your_options := -1, strike_price := 0
    funding_rounds := [] }

/-- Example table for the option-value witness. -/
def exampleTableC6w : CapTable :=
  { total_shares := 10, your_options := 4, strike_price := 1
    funding_rounds := [⟨"Seed", 2, 3, 1, true⟩] }

/-- Example table for the monotonicity counterexample: a participating
Series B above a small non-participating Series A whose conversion
election flips off as the exit valuation grows. -/
def exampleTableC7 : CapTable :=
  { total_shares := 100, your_options := 8, strike_price := 0
    funding_rounds := [⟨"Series B", 10, 50, 1, true⟩, ⟨"Series A", 10, 20, 1, false⟩] }

/-- Example table for the monotonicity witness: every active round is
participating. -/
def exampleTableC7w : CapTable :=
  { total_shares := 10, your_options := 2, strike_price := 0
    funding_rounds := [⟨"Seed", 2, 4, 1, true⟩] }

/-- Example table for the Phase 2 order-invariance witness. -/
def exampleTableC9 : CapTable :=
  { total_shares := 10, your_options := 0, strike_price := 0
    funding_rounds := [⟨"Seed", 1, 1, 1, false⟩, ⟨"Series A", 1, 1, 1, false⟩] }

/-- Example table for the value-per-option witness. -/
def exampleTableC10 : CapTable :=
  { total_shares := 10, your_options := 5, strike_price := 1
    funding_rounds := [] }

/-! ## Helper lemmas -/

/-- The sort key only takes the five values of the known-name table plus
the fallback `999`. -/
theorem roundKey_cases (r : FundingRound) :
    roundKey r = 0 ∨ roundKey r = 1 ∨ roundKey r = 2 ∨ roundKey r = 3 ∨ roundKey r = 999 := by
  unfold roundKey
  by_cases h0 : r.name = "Seed"
  · simp [h0]
  by_cases h1 : r.name = "Series A"
  · simp [h0, h1]
  by_cases h2 : r.name = "Series B"
  · simp [h0, h1, h2]
  by_cases h3 : r.name = "Series C"
  · simp [h0, h1, h2, h3]
  · simp [h0, h1, h2, h3]

/-- The defining equation of `insertDesc` on a nonempty list. -/
theorem insertDesc_cons (r s : FundingRound) (rest : List FundingRound) :
    insertDesc r (s :: rest) =
      if roundKey r < roundKey s then s :: insertDesc r rest else r :: s :: rest := rfl

/-- Every sort key is at most the fallback value `999`. -/
theorem roundKey_le (r : FundingRound) : roundKey r ≤ 999 := by
  rcases roundKey_cases r with h | h | h | h | h <;> rw [h] <;> omega

/-- Membership through stable insertion. -/
theorem mem_insertDesc {a r : FundingRound} :
    ∀ {l : List FundingRound}, a ∈ insertDesc r l ↔ a = r ∨ a ∈ l := by
  intro l
  induction l with
  | nil => simp [insertDesc]
  | cons s rest ih =>
    unfold insertDesc
    split
    · simp only [List.mem_cons, ih]
      tauto
    · simp only [List.mem_cons]

/-- The sorted round list has exactly the members of the input list. -/
theorem mem_sortedRounds {a : FundingRound} :
    ∀ {l : List FundingRound}, a ∈ sortedRounds l ↔ a ∈ l := by
  intro l
  induction l with
  | nil => simp [sortedRounds]
  | cons r rest ih =>
    unfold sortedRounds
    rw [mem_insertDesc, ih, List.mem_cons]

/-- Insertion passes over a prefix of strictly larger keys. -/
theorem insertDesc_append_of_lt {r : FundingRound} :
    ∀ {a : List FundingRound}, (∀ s ∈ a, roundKey r < roundKey s) →
      ∀ (b : List FundingRound), insertDesc r (a ++ b) = a ++ insertDesc r b := by
  intro a
  induction a with
  | nil => intro _ b; rfl
  | cons s rest ih =>
    intro h b
    rw [List.cons_append, insertDesc_cons, if_pos (h s (List.mem_cons_self s rest)),
      ih (fun x hx => h x (List.mem_cons_of_mem _ hx)) b]
    rfl

/-- Insertion lands at the head of a list of keys at most its own. -/
theorem insertDesc_eq_cons {r : FundingRound} :
    ∀ {b : List FundingRound}, (∀ s ∈ b, roundKey s ≤ roundKey r) →
      insertDesc r b = r :: b := by
  intro b h
  cases b with
  | nil => rfl
  | cons s rest =>
    rw [insertDesc_cons, if_neg]
    exact not_lt.mpr (h s (List.mem_cons_self s rest))

/-- A member of a key-filtered list has that key. -/
theorem mem_filterKey {k : ℕ} {s : FundingRound} {l : List FundingRound}
    (h : s ∈ filterKey k l) : roundKey s = k := by
  unfold filterKey at h
  rw [List.mem_filter] at h
  simpa using h.2

/-- Filtering by the key of the head keeps the head. -/
theorem filterKey_cons_self (k : ℕ) {r : FundingRound} (l : List FundingRound)
    (h : roundKey r = k) : filterKey k (r :: l) = r :: filterKey k l := by
  simp [filterKey, List.filter_cons, h]

/-- Filtering by a key other than the head's skips the head. -/
theorem filterKey_cons_ne (k : ℕ) {r : FundingRound} (l : List FundingRound)
    (h : roundKey r ≠ k) : filterKey k (r :: l) = filterKey k l := by
  simp [filterKey, List.filter_cons, h]

/-- The running remaining proceeds plus the recorded payouts is an
invariant of the Phase 1 loop: every deduction from `remaining_proceeds`
is recorded in the payout history. -/
theorem phase1_remaining_add_history (l : List FundingRound) (st : Phase1State) :
    (l.foldl phase1Step st).remaining + ((l.foldl phase1Step st).history.map (fun e => e.2)).sum
      = st.remaining + (st.history.map (fun e => e.2)).sum := by
  induction l generalizing st with
  | nil => rfl
  | cons r rest ih =>
    rw [List.foldl_cons, ih]
    by_cases hact : 0 < r.shares_issued ∧ 0 < r.capital_raised
    · simp only [phase1Step, if_pos hact, List.map_append, List.sum_append,
        List.map_cons, List.sum_cons, List.map_nil, List.sum_nil]
      ring
    · rw [phase1Step, if_neg hact]

/-- Phase 1 registers exactly the active participating rounds, in
processing order, after whatever the state already held. -/
theorem phase1_participating_eq (l : List FundingRound) (st : Phase1State) :
    (l.foldl phase1Step st).participating = st.participating ++ participants l := by
  induction l generalizing st with
  | nil => simp [participants]
  | cons r rest ih =>
    rw [List.foldl_cons, ih]
    by_cases hact : 0 < r.shares_issued ∧ 0 < r.capital_raised
    · by_cases hp : r.is_participating = true
      · simp [phase1Step, participants, List.filterMap_cons, hact, hp, List.append_assoc]
      · have hc : ¬(0 < r.shares_issued ∧ 0 < r.capital_raised ∧ r.is_participating = true) := by
          rintro ⟨-, -, h3⟩; exact hp h3
        simp [phase1Step, participants, List.filterMap_cons, hact, hp, hc]
    · have hc : ¬(0 < r.shares_issued ∧ 0 < r.capital_raised ∧ r.is_participating = true) := by
        rintro ⟨h1, h2, -⟩; exact hact ⟨h1, h2⟩
      simp [phase1Step, participants, List.filterMap_cons, hact, hc]

/-- Every registered participating entry carries a positive share count. -/
theorem participants_pos {l : List FundingRound} {p : String × ℤ}
    (h : p ∈ participants l) : 0 < p.2 := by
  unfold participants at h
  rw [List.mem_filterMap] at h
  rcases h with ⟨r, -, hr⟩
  by_cases hc : 0 < r.shares_issued ∧ 0 < r.capital_raised ∧ r.is_participating = true
  · rw [if_pos hc] at hr
    cases hr
    exact hc.1
  · rw [if_neg hc] at hr
    cases hr

/-- Every conversion event carries a positive share count. -/
theorem events_shares_pos {ct : CapTable} {V : ℚ} {payouts : String → ℚ}
    {l : List FundingRound} {e : String × ℚ × ℤ}
    (h : e ∈ phase2Events ct V payouts l) : 0 < e.2.2 := by
  unfold phase2Events at h
  rw [List.mem_filterMap] at h
  rcases h with ⟨r, -, hr⟩
  unfold convertedEvent at hr
  by_cases hc : 0 < r.shares_issued ∧ 0 < r.capital_raised ∧ r.is_participating = false ∧
      payouts r.name < (r.shares_issued : ℚ) / (ct.total_shares : ℚ) * V
  · rw [if_pos hc] at hr
    cases hr
    exact hc.1
  · rw [if_neg hc] at hr
    cases hr

/-- The Phase 2 loop aggregates the per-round conversion events: each
converting round's looked-up preference value is added to the remaining
proceeds and its shares are added to the eligible pool; nothing else
changes the state. -/
theorem phase2_foldl_eq (ct : CapTable) (V : ℚ) (payouts : String → ℚ)
    (l : List FundingRound) (st : Phase2State) :
    l.foldl (phase2Step ct V payouts) st =
      { remaining := st.remaining + ((phase2Events ct V payouts l).map (fun e => e.2.1)).sum
        total_participating_shares :=
          st.total_participating_shares
            + ((phase2Events ct V payouts l).map (fun e => e.2.2)).sum } := by
  induction l generalizing st with
  | nil => simp [phase2Events]
  | cons r rest ih =>
    rw [List.foldl_cons, ih]
    by_cases h1 : 0 < r.shares_issued ∧ 0 < r.capital_raised ∧ r.is_participating = false
    · by_cases h2 : payouts r.name < (r.shares_issued : ℚ) / (ct.total_shares : ℚ) * V
      · have hev : convertedEvent ct V payouts r
            = some (r.name, payouts r.name, r.shares_issued) := by
          unfold convertedEvent
          rw [if_pos ⟨h1.1, h1.2.1, h1.2.2, h2⟩]
        simp only [phase2Step, if_pos h1, if_pos h2, phase2Events, List.filterMap_cons, hev,
          List.map_cons, List.sum_cons, Phase2State.mk.injEq]
        constructor <;> ring
      · have hev : convertedEvent ct V payouts r = none := by
          unfold convertedEvent
          rw [if_neg]
          rintro ⟨-, -, -, hlt⟩
          exact h2 hlt
        simp only [phase2Step, if_pos h1, if_neg h2, phase2Events, List.filterMap_cons, hev]
    · have hev : convertedEvent ct V payouts r = none := by
        unfold convertedEvent
        rw [if_neg]
        rintro ⟨ha, hb, hc, -⟩
        exact h1 ⟨ha, hb, hc⟩
      simp only [phase2Step, if_neg h1, phase2Events, List.filterMap_cons, hev]

/-- Pulling a constant factor out of a mapped sum. -/
theorem sum_map_mul_left_q {α : Type} (a : ℚ) (f : α → ℚ) (l : List α) :
    (l.map (fun x => a * f x)).sum = a * (l.map f).sum := by
  induction l with
  | nil => simp
  | cons x xs ih => simp [ih, mul_add]

/-- Casting an integer mapped sum into the rationals. -/
theorem intCast_sum_map {α : Type} (f : α → ℤ) (l : List α) :
    (((l.map f).sum : ℤ) : ℚ) = (l.map (fun x => ((f x : ℤ) : ℚ))).sum := by
  induction l with
  | nil => simp
  | cons x xs ih =>
    simp only [List.map_cons, List.sum_cons, Int.cast_add]
    rw [ih]

/-- `pymin` is the lattice minimum. -/
theorem pymin_eq_min (a b : ℚ) : pymin a b = min a b :=
  (min_def a b).symm

/-- The step of remaining proceeds in Phase 1 is monotone in the incoming
remaining proceeds. -/
theorem waterfall_cut_mono {x y p : ℚ} (h : x ≤ y) : x - min x p ≤ y - min y p := by
  rcases le_total x p with hx | hx
  · rw [min_eq_left hx]
    have h2 := min_le_left y p
    linarith
  · rw [min_eq_right hx, min_eq_right (hx.trans h)]
    linarith

/-- The Phase 1 loop is monotone in the remaining proceeds. -/
theorem phase1_remaining_mono (l : List FundingRound) :
    ∀ {st₁ st₂ : Phase1State}, st₁.remaining ≤ st₂.remaining →
      (l.foldl phase1Step st₁).remaining ≤ (l.foldl phase1Step st₂).remaining := by
  induction l with
  | nil => intro _ _ h; exact h
  | cons r rest ih =>
    intro st₁ st₂ h
    rw [List.foldl_cons, List.foldl_cons]
    apply ih
    by_cases hact : 0 < r.shares_issued ∧ 0 < r.capital_raised
    · simp only [phase1Step, if_pos hact, pymin_eq_min]
      exact waterfall_cut_mono h
    · simp only [phase1Step, if_neg hact]
      exact h

/-- When every active round participates, the Phase 2 loop changes
nothing. -/
theorem phase2_noop (ct : CapTable) (V : ℚ) (payouts : String → ℚ) :
    ∀ (l : List FundingRound),
      (∀ r ∈ l, 0 < r.shares_issued → 0 < r.capital_raised → r.is_participating = true) →
      ∀ st, l.foldl (phase2Step ct V payouts) st = st := by
  intro l
  induction l with
  | nil => intro _ st; rfl
  | cons r rest ih =>
    intro h st
    rw [List.foldl_cons]
    have hr : phase2Step ct V payouts st r = st := by
      unfold phase2Step
      rw [if_neg]
      rintro ⟨h1, h2, h3⟩
      have ht := h r (List.mem_cons_self r rest) h1 h2
      rw [ht] at h3
      cases h3
    rw [hr]
    exact ih (fun x hx => h x (List.mem_cons_of_mem _ hx)) st

/-- The `calculate_multiple_scenarios` loop, generalised over the
accumulator. -/
theorem calc_multiple_aux (ct : CapTable) :
    ∀ (scenarios : List ExitScenario) (acc : List ScenarioResult),
      scenarios.foldl
        (fun results s =>
          if 0 < s.exit_valuation then results ++ [calculate_scenario ct s] else results)
        acc
      = acc ++ (scenarios.filter (fun s => decide (0 < s.exit_valuation))).map
          (calculate_scenario ct) := by
  intro scenarios
  induction scenarios with
  | nil => intro acc; simp
  | cons s rest ih =>
    intro acc
    rw [List.foldl_cons]
    by_cases h : 0 < s.exit_valuation
    · rw [if_pos h, ih, List.filter_cons]
      simp [h, List.append_assoc]
    · rw [if_neg h, ih, List.filter_cons]
      simp [h]

/-! ## Claim theorems -/

/-- Claim C4: for every cap table whose common shares are ≤ 0 and every
exit scenario, `calculate_scenario` returns the explicit
"Preferred shares exceed total shares" error result (zero option value,
price and proceeds; `error` field set), with no Phase 1 computation and no
uncaught fault. -/
theorem c4_invalid_cap_table (ct : CapTable) (s : ExitScenario)
    (h : ct.common_shares ≤ 0) :
    calculate_scenario ct s =
      { scenario_name := s.name
        exit_valuation := s.exit_valuation
        option_value := 0
        price_per_share := 0
        common_proceeds := 0
        error := some "Preferred shares exceed total shares" } := by
  rw [calculate_scenario, if_pos h]
  rfl

/-- Witness for claim C4 at a concrete invalid cap table (10 preferred
shares out of 5 total). -/
theorem c4_invalid_cap_table_witness :
    exampleTableC4.common_shares ≤ 0 ∧
    calculate_scenario exampleTableC4 ⟨"Exit", 100⟩ =
      { scenario_name := "Exit"
        exit_valuation := 100
        option_value := 0
        price_per_share := 0
        common_proceeds := 0
        error := some "Preferred shares exceed total shares" } :=
  ⟨by decide, c4_invalid_cap_table exampleTableC4 ⟨"Exit", 100⟩ (by decide)⟩

/-- Claim C8: `calculate_multiple_scenarios` returns exactly one result
per scenario with positive exit valuation, in input order, each computed
independently by `calculate_scenario`; scenarios with non-positive
valuation contribute nothing (so an all-non-positive list yields `[]`,
not an error). -/
theorem c8_multiple_scenarios (ct : CapTable) (scenarios : List ExitScenario) :
    calculate_multiple_scenarios ct scenarios =
      (scenarios.filter (fun s => decide (0 < s.exit_valuation))).map
        (calculate_scenario ct) := by
  rw [calculate_multiple_scenarios, calc_multiple_aux]
  rfl

/-- Counterexample to claim C2: with a known "Seed" round listed before an
unrecognised "Angel" round, the engine processes "Angel" FIRST (the
fallback key 999 sorts highest under `reverse=True`), and with exit
valuation 10 the "Angel" round absorbs the entire proceeds while "Seed"
receives nothing — the opposite of the claimed
"unknown names are processed after all known rounds". -/
theorem c2_unknown_rounds_first :
    sortedRounds exampleTableC2.funding_rounds
      = [⟨"Angel", 1, 10, 1, false⟩, ⟨"Seed", 1, 10, 1, false⟩] ∧
    (scenarioPhase1 exampleTableC2 10).payouts "Angel" = 10 ∧
    (scenarioPhase1 exampleTableC2 10).payouts "Seed" = 0 := by
  have hsort : sortedRounds [(⟨"Seed", 1, 10, 1, false⟩ : FundingRound), ⟨"Angel", 1, 10, 1, false⟩]
      = [⟨"Angel", 1, 10, 1, false⟩, ⟨"Seed", 1, 10, 1, false⟩] := by decide
  refine ⟨by decide, ?_, ?_⟩ <;>
    norm_num [exampleTableC2, scenarioPhase1, runPhase1, hsort,
      initPhase1, phase1Step, pymin, FundingRound.liquidation_preference, Function.update,
      (show ("Angel":String) ≠ "Seed" by decide), (show ("Seed":String) ≠ "Angel" by decide)]

/-- Claim C2 as amended: Phase 1 iterates over `sortedRounds`, which
orders the rounds as: all rounds with names OUTSIDE the known set first
(highest priority, in original order among themselves), then the
Series C, Series B, Series A and Seed groups, each group in original
order. -/
theorem c2_round_priority_order (l : List FundingRound) :
    sortedRounds l =
      filterKey 999 l ++ (filterKey 3 l ++ (filterKey 2 l ++ (filterKey 1 l ++ filterKey 0 l))) := by
  induction l with
  | nil => rfl
  | cons r rest ih =>
    show insertDesc r (sortedRounds rest) = _
    rw [ih]
    rcases roundKey_cases r with h | h | h | h | h
    · -- roundKey r = 0 ("Seed")
      have p999 : ∀ s ∈ filterKey 999 rest, roundKey r < roundKey s := by
        intro s hs; have hk := mem_filterKey hs; omega
      have p3 : ∀ s ∈ filterKey 3 rest, roundKey r < roundKey s := by
        intro s hs; have hk := mem_filterKey hs; omega
      have p2 : ∀ s ∈ filterKey 2 rest, roundKey r < roundKey s := by
        intro s hs; have hk := mem_filterKey hs; omega
      have p1 : ∀ s ∈ filterKey 1 rest, roundKey r < roundKey s := by
        intro s hs; have hk := mem_filterKey hs; omega
      have p0 : ∀ s ∈ filterKey 0 rest, roundKey s ≤ roundKey r := by
        intro s hs; have hk := mem_filterKey hs; omega
      rw [insertDesc_append_of_lt p999, insertDesc_append_of_lt p3,
        insertDesc_append_of_lt p2, insertDesc_append_of_lt p1,
        insertDesc_eq_cons p0,
        filterKey_cons_ne 999 rest (by omega),
        filterKey_cons_ne 3 rest (by omega),
        filterKey_cons_ne 2 rest (by omega),
        filterKey_cons_ne 1 rest (by omega),
        filterKey_cons_self 0 rest h]
    · -- roundKey r = 1 ("Series A")
      have p999 : ∀ s ∈ filterKey 999 rest, roundKey r < roundKey s := by
        intro s hs; have hk := mem_filterKey hs; omega
      have p3 : ∀ s ∈ filterKey 3 rest, roundKey r < roundKey s := by
        intro s hs; have hk := mem_filterKey hs; omega
      have p2 : ∀ s ∈ filterKey 2 rest, roundKey r < roundKey s := by
        intro s hs; have hk := mem_filterKey hs; omega
      have ptl : ∀ s ∈ filterKey 1 rest ++ filterKey 0 rest, roundKey s ≤ roundKey r := by
        intro s hs
        rcases List.mem_append.mp hs with hs | hs <;> · have hk := mem_filterKey hs; omega
      rw [insertDesc_append_of_lt p999, insertDesc_append_of_lt p3,
        insertDesc_append_of_lt p2, insertDesc_eq_cons ptl,
        filterKey_cons_ne 999 rest (by omega),
        filterKey_cons_ne 3 rest (by omega),
        filterKey_cons_ne 2 rest (by omega),
        filterKey_cons_ne 0 rest (by omega),
        filterKey_cons_self 1 rest h]
      simp
    · -- roundKey r = 2 ("Series B")
      have p999 : ∀ s ∈ filterKey 999 rest, roundKey r < roundKey s := by
        intro s hs; have hk := mem_filterKey hs; omega
      have p3 : ∀ s ∈ filterKey 3 rest, roundKey r < roundKey s := by
        intro s hs; have hk := mem_filterKey hs; omega
      have ptl : ∀ s ∈ filterKey 2 rest ++ (filterKey 1 rest ++ filterKey 0 rest),
          roundKey s ≤ roundKey r := by
        intro s hs
        rcases List.mem_append.mp hs with hs | hs
        · have hk := mem_filterKey hs; omega
        · rcases List.mem_append.mp hs with hs | hs <;> · have hk := mem_filterKey hs; omega
      rw [insertDesc_append_of_lt p999, insertDesc_append_of_lt p3,
        insertDesc_eq_cons ptl,
        filterKey_cons_ne 999 rest (by omega),
        filterKey_cons_ne 3 rest (by omega),
        filterKey_cons_ne 1 rest (by omega),
        filterKey_cons_ne 0 rest (by omega),
        filterKey_cons_self 2 rest h]
      simp
    · -- roundKey r = 3 ("Series C")
      have p999 : ∀ s ∈ filterKey 999 rest, roundKey r < roundKey s := by
        intro s hs; have hk := mem_filterKey hs; omega
      have ptl : ∀ s ∈ filterKey 3 rest ++ (filterKey 2 rest ++ (filterKey 1 rest ++ filterKey 0 rest)),
          roundKey s ≤ roundKey r := by
        intro s hs
        rcases List.mem_append.mp hs with hs | hs
        · have hk := mem_filterKey hs; omega
        rcases List.mem_append.mp hs with hs | hs
        · have hk := mem_filterKey hs; omega
        rcases List.mem_append.mp hs with hs | hs <;> · have hk := mem_filterKey hs; omega
      rw [insertDesc_append_of_lt p999, insertDesc_eq_cons ptl,
        filterKey_cons_ne 999 rest (by omega),
        filterKey_cons_ne 2 rest (by omega),
        filterKey_cons_ne 1 rest (by omega),
        filterKey_cons_ne 0 rest (by omega),
        filterKey_cons_self 3 rest h]
      simp
    · -- roundKey r = 999 (unknown name)
      have ptl : ∀ s ∈ filterKey 999 rest ++ (filterKey 3 rest ++ (filterKey 2 rest ++ (filterKey 1 rest ++ filterKey 0 rest))),
          roundKey s ≤ roundKey r := by
        intro s _
        rw [h]
        exact roundKey_le s
      rw [insertDesc_eq_cons ptl,
        filterKey_cons_ne 3 rest (by omega),
        filterKey_cons_ne 2 rest (by omega),
        filterKey_cons_ne 1 rest (by omega),
        filterKey_cons_ne 0 rest (by omega),
        filterKey_cons_self 999 rest h]
      simp

/-- Counterexample to claim C3: in `exampleTableC3` two rounds share the
name "Seed".  At exit valuation 30, Phase 1 pays the first round 20 and
the second 4 (the history), and the dict entry under "Seed" ends at 4.
The first round's own conversion value is `30/100*30 = 9`, which does NOT
exceed its own Phase 1 payout of 20 — yet the engine converts it (the one
recorded event), refunding only the looked-up value 4, because the
conversion test reads `preference_payouts.get("Seed", 0) = 4`, not the
payout that round itself received. -/
theorem c3_conversion_counterexample :
    (scenarioPhase1 exampleTableC3 30).history = [("Seed", 20), ("Seed", 4)] ∧
    (30 : ℚ) / 100 * 30 ≤ 20 ∧
    scenarioEvents exampleTableC3 30 = [("Seed", 4, 30)] ∧
    (scenarioPhase2 exampleTableC3 30).remaining = 10 := by
  have hsort : sortedRounds [(⟨"Seed", 30, 20, 1, false⟩ : FundingRound), ⟨"Seed", 5, 4, 1, false⟩]
      = [⟨"Seed", 30, 20, 1, false⟩, ⟨"Seed", 5, 4, 1, false⟩] := by decide
  refine ⟨?_, by norm_num, ?_, ?_⟩ <;>
    norm_num [exampleTableC3, scenarioPhase1, scenarioPhase2, scenarioEvents, phase2Events,
      convertedEvent, phase2Step, runPhase1, hsort, initPhase1, phase1Step, pymin,
      FundingRound.liquidation_preference, Function.update, participatingShares,
      CapTable.common_shares, CapTable.total_preferred_shares,
      List.filterMap_cons, List.filterMap_nil]

/-- The scenario-level Phase 2 state equals the Phase 1 state plus the
aggregated conversion events. -/
theorem scenarioPhase2_eq_totals (ct : CapTable) (V : ℚ) :
    scenarioPhase2 ct V =
      { remaining := (scenarioPhase1 ct V).remaining + refundTotal ct V
        total_participating_shares :=
          ct.common_shares + participatingShares ct V + convertedSharesTotal ct V } := by
  rw [scenarioPhase2, phase2_foldl_eq]
  rfl

/-- Claim C3 as amended: the Phase 2 loop aggregates per-round conversion
events decided independently of the running state: a round converts
exactly when it is active, non-participating, and its conversion value
strictly exceeds the preference value recorded in the dict UNDER ITS NAME
(`preference_payouts.get(name, 0)` — equal to its own Phase 1 payout
whenever round names are distinct); each converting round's looked-up
preference value is refunded to the remaining proceeds and its shares join
the eligible pool, and participating rounds never convert (they produce no
event). -/
theorem c3_conversion_rule (ct : CapTable) (V : ℚ) :
    scenarioPhase2 ct V =
      { remaining := (scenarioPhase1 ct V).remaining + refundTotal ct V
        total_participating_shares :=
          ct.common_shares + participatingShares ct V + convertedSharesTotal ct V } :=
  scenarioPhase2_eq_totals ct V

/-- Claim C9: the Phase 2 conversion pass is invariant under the order in
which the rounds are examined: folding the conversion step over any
permutation of the sorted round list, from the same Phase 1 state, ends in
exactly the same remaining proceeds and eligible-shares pool. -/
theorem c9_phase2_order_invariant (ct : CapTable) (V : ℚ) (l : List FundingRound)
    (h : List.Perm (sortedRounds ct.funding_rounds) l) :
    l.foldl (phase2Step ct V (scenarioPhase1 ct V).payouts)
      { remaining := (scenarioPhase1 ct V).remaining
        total_participating_shares := ct.common_shares + participatingShares ct V }
      = scenarioPhase2 ct V := by
  rw [scenarioPhase2, phase2_foldl_eq, phase2_foldl_eq]
  have hev := List.Perm.filterMap (convertedEvent ct V (scenarioPhase1 ct V).payouts) h
  have h1 := List.Perm.sum_eq (List.Perm.map (fun e : String × ℚ × ℤ => e.2.1) hev)
  have h2 := List.Perm.sum_eq (List.Perm.map (fun e : String × ℚ × ℤ => e.2.2) hev)
  rw [Phase2State.mk.injEq]
  constructor
  · rw [phase2Events, phase2Events, h1]
  · rw [phase2Events, phase2Events, h2]

/-- Witness for claim C9: the two active rounds of `exampleTableC9` are
examined in the order Series A then Seed by the engine; folding the
conversion pass in the reversed order reaches the same final state. -/
theorem c9_phase2_order_invariant_witness :
    List.Perm (sortedRounds exampleTableC9.funding_rounds)
      [(⟨"Seed", 1, 1, 1, false⟩ : FundingRound), ⟨"Series A", 1, 1, 1, false⟩] ∧
    [(⟨"Seed", 1, 1, 1, false⟩ : FundingRound), ⟨"Series A", 1, 1, 1, false⟩].foldl
      (phase2Step exampleTableC9 5 (scenarioPhase1 exampleTableC9 5).payouts)
      { remaining := (scenarioPhase1 exampleTableC9 5).remaining
        total_participating_shares :=
          exampleTableC9.common_shares + participatingShares exampleTableC9 5 }
      = scenarioPhase2 exampleTableC9 5 := by
  have hperm : List.Perm (sortedRounds exampleTableC9.funding_rounds)
      [(⟨"Seed", 1, 1, 1, false⟩ : FundingRound), ⟨"Series A", 1, 1, 1, false⟩] := by
    have hs : sortedRounds exampleTableC9.funding_rounds
        = [(⟨"Series A", 1, 1, 1, false⟩ : FundingRound), ⟨"Seed", 1, 1, 1, false⟩] := by decide
    rw [hs]
    exact List.Perm.swap _ _ _
  exact ⟨hperm, c9_phase2_order_invariant exampleTableC9 5 _ hperm⟩

/-- On a valid table (`common_shares > 0`) the returned option value is
`max(0, price_per_share - strike) * your_options`, read off the non-error
branch of `calculate_scenario`. -/
theorem calc_option_value_eq (ct : CapTable) (s : ExitScenario) (h : ¬ct.common_shares ≤ 0) :
    (calculate_scenario ct s).option_value =
      max 0 ((calculate_scenario ct s).price_per_share - ct.strike_price)
        * (ct.your_options : ℚ) := by
  rw [calculate_scenario, if_neg h]

/-- Counterexample to claim C6: with a negative option count (-1 options,
a value the dataclass does not reject), a positive price per share makes
the returned total option value negative. -/
theorem c6_negative_option_value :
    (calculate_scenario exampleTableC6 ⟨"Exit", 1⟩).option_value < 0 := by
  norm_num [calculate_scenario, exampleTableC6, CapTable.common_shares,
    CapTable.total_preferred_shares, scenarioPhase2, scenarioPhase1, runPhase1, sortedRounds,
    initPhase1, participatingShares, commonProceedsOf, pricePerCommonShareOf]

/-- Claim C6 as amended: on every valid table the option value equals
`max(0, price per common share - strike) * option count`, and the returned
total option value is non-negative PROVIDED the option count is
non-negative (the per-share factor `max 0 _` is always non-negative). -/
theorem c6_option_value_formula (ct : CapTable) (s : ExitScenario) :
    (0 < ct.common_shares →
      (calculate_scenario ct s).option_value =
        max 0 ((calculate_scenario ct s).price_per_share - ct.strike_price)
          * (ct.your_options : ℚ)) ∧
    (0 ≤ ct.your_options → 0 ≤ (calculate_scenario ct s).option_value) := by
  constructor
  · intro h
    exact calc_option_value_eq ct s (by omega)
  · intro ho
    by_cases h : ct.common_shares ≤ 0
    · rw [calculate_scenario, if_pos h]
      exact le_refl 0
    · rw [calc_option_value_eq ct s h]
      have h1 : (0:ℚ) ≤ max 0 ((calculate_scenario ct s).price_per_share - ct.strike_price) :=
        le_max_left 0 _
      have h2 : (0:ℚ) ≤ (ct.your_options : ℚ) := by exact_mod_cast ho
      exact mul_nonneg h1 h2

/-- Witness for the amended claim C6 at a concrete valid table with a
non-negative option count. -/
theorem c6_option_value_formula_witness :
    (calculate_scenario exampleTableC6w ⟨"Exit", 20⟩).option_value =
      max 0 ((calculate_scenario exampleTableC6w ⟨"Exit", 20⟩).price_per_share
        - exampleTableC6w.strike_price) * (exampleTableC6w.your_options : ℚ) ∧
    0 ≤ (calculate_scenario exampleTableC6w ⟨"Exit", 20⟩).option_value :=
  ⟨(c6_option_value_formula exampleTableC6w ⟨"Exit", 20⟩).1 (by decide),
    (c6_option_value_formula exampleTableC6w ⟨"Exit", 20⟩).2 (by decide)⟩

/-- Claim C10: `value_per_option` returns the result's `price_per_share`
itself, NOT the option's intrinsic value: whenever the strike price is
positive and the share price exceeds it, `value_per_option` differs from
`option_value` divided by the option count. -/
theorem c10_value_per_option (ct : CapTable) (s : ExitScenario)
    (hk : 0 < ct.strike_price)
    (hp : ct.strike_price < (calculate_scenario ct s).price_per_share) :
    (calculate_scenario ct s).value_per_option = (calculate_scenario ct s).price_per_share ∧
    (calculate_scenario ct s).value_per_option ≠
      (calculate_scenario ct s).option_value / (ct.your_options : ℚ) := by
  refine ⟨rfl, ?_⟩
  by_cases h : ct.common_shares ≤ 0
  · exfalso
    rw [calculate_scenario, if_pos h] at hp
    have : (errorResult s).price_per_share = 0 := rfl
    rw [this] at hp
    linarith
  · have hov := calc_option_value_eq ct s h
    have hmax : max 0 ((calculate_scenario ct s).price_per_share - ct.strike_price)
        = (calculate_scenario ct s).price_per_share - ct.strike_price :=
      max_eq_right (by linarith)
    show (calculate_scenario ct s).price_per_share ≠ _
    rw [hov, hmax]
    by_cases ho : (ct.your_options : ℚ) = 0
    · rw [ho, mul_zero, zero_div]
      intro h0
      rw [h0] at hp
      linarith
    · rw [mul_div_cancel_right₀ _ ho]
      intro heq
      have : ct.strike_price = 0 := by linarith
      linarith

/-- Witness for claim C10 at a concrete table: price per share 10, strike
1, 5 options; `value_per_option` is 10 while option value per option is 9. -/
theorem c10_value_per_option_witness :
    (0:ℚ) < exampleTableC10.strike_price ∧
    (calculate_scenario exampleTableC10 ⟨"IPO", 100⟩).value_per_option ≠
      (calculate_scenario exampleTableC10 ⟨"IPO", 100⟩).option_value
        / (exampleTableC10.your_options : ℚ) := by
  have hp : exampleTableC10.strike_price
      < (calculate_scenario exampleTableC10 ⟨"IPO", 100⟩).price_per_share := by
    norm_num [calculate_scenario, exampleTableC10, CapTable.common_shares,
      CapTable.total_preferred_shares, scenarioPhase2, scenarioPhase1, runPhase1, sortedRounds,
      initPhase1, participatingShares, commonProceedsOf, pricePerCommonShareOf]
  exact ⟨by decide, (c10_value_per_option exampleTableC10 ⟨"IPO", 100⟩ (by decide) hp).2⟩

/-- When the total share count is nonzero, the fallible Phase 2 step never
raises and agrees with the total model. -/
theorem phase2StepE_ok (ct : CapTable) (V : ℚ) (payouts : String → ℚ)
    (h : (ct.total_shares : ℚ) ≠ 0) (st : Phase2State) (r : FundingRound) :
    phase2StepE ct V payouts st r = Except.ok (phase2Step ct V payouts st r) := by
  unfold phase2StepE phase2Step
  by_cases h1 : 0 < r.shares_issued ∧ 0 < r.capital_raised ∧ r.is_participating = false
  · rw [if_pos h1, if_pos h1, if_neg h]
  · rw [if_neg h1, if_neg h1]

/-- When the total share count is nonzero, the fallible Phase 2 loop never
raises and agrees with the total model. -/
theorem phase2_foldlM_ok (ct : CapTable) (V : ℚ) (payouts : String → ℚ)
    (h : (ct.total_shares : ℚ) ≠ 0) :
    ∀ (l : List FundingRound) (st : Phase2State),
      l.foldlM (phase2StepE ct V payouts) st
        = Except.ok (l.foldl (phase2Step ct V payouts) st) := by
  intro l
  induction l with
  | nil => intro st; rfl
  | cons r rest ih =>
    intro st
    rw [List.foldlM_cons, phase2StepE_ok ct V payouts h st r]
    exact ih (phase2Step ct V payouts st r)

/-- Counterexample to claim C5: `exampleTableC5` has zero total shares but
a negative share count in one round keeps `common_shares` positive, so the
validity check passes and the unguarded Phase 2 division
`round.shares_issued / self.cap_table.total_shares` divides by zero — in
Python, `calculate_scenario` raises `ZeroDivisionError` instead of
returning a value. -/
theorem c5_zero_division_fault :
    calculate_scenarioE exampleTableC5 ⟨"Exit", 1⟩ = Except.error "division by zero" := by
  have hsort : sortedRounds [(⟨"Series A", 5, 1, 1, false⟩ : FundingRound), ⟨"Seed", -10, 1, 1, false⟩]
      = [⟨"Series A", 5, 1, 1, false⟩, ⟨"Seed", -10, 1, 1, false⟩] := by decide
  norm_num [calculate_scenarioE, exampleTableC5, CapTable.common_shares,
    CapTable.total_preferred_shares, phase2RunE, hsort, phase2StepE, scenarioPhase1,
    runPhase1, initPhase1, phase1Step, pymin, FundingRound.liquidation_preference,
    Function.update, participatingShares, List.foldlM_cons, List.foldlM_nil]
  rfl

/-- Claim C5 as amended: for every cap table whose rounds all carry
non-negative share counts (the data model's invariant) and every exit
scenario, the fallible model raises no arithmetic fault and returns
exactly the result of the total model: after the `common_shares > 0` check
the total share count is provably positive, and the remaining divisions
are guarded. -/
theorem c5_no_arithmetic_fault (ct : CapTable) (s : ExitScenario)
    (h : ∀ r ∈ ct.funding_rounds, 0 ≤ r.shares_issued) :
    calculate_scenarioE ct s = Except.ok (calculate_scenario ct s) := by
  by_cases hc : ct.common_shares ≤ 0
  · rw [calculate_scenarioE, calculate_scenario, if_pos hc, if_pos hc]
  · have htp : 0 ≤ ct.total_preferred_shares := by
      rw [CapTable.total_preferred_shares]
      apply List.sum_nonneg
      intro x hx
      rw [List.mem_map] at hx
      rcases hx with ⟨r, hr, rfl⟩
      exact h r hr
    have ht : (0:ℤ) < ct.total_shares := by
      rw [CapTable.common_shares] at hc
      omega
    have htq : (ct.total_shares : ℚ) ≠ 0 := Int.cast_ne_zero.mpr (by omega)
    rw [calculate_scenarioE, calculate_scenario, if_neg hc, if_neg hc, phase2RunE,
      phase2_foldlM_ok ct s.exit_valuation (scenarioPhase1 ct s.exit_valuation).payouts htq]
    rfl

/-- Witness for the amended claim C5 at a concrete table whose share
counts are all non-negative. -/
theorem c5_no_arithmetic_fault_witness :
    (∀ r ∈ exampleTableC5w.funding_rounds, 0 ≤ r.shares_issued) ∧
    calculate_scenarioE exampleTableC5w ⟨"Exit", 12⟩
      = Except.ok (calculate_scenario exampleTableC5w ⟨"Exit", 12⟩) :=
  ⟨by decide, c5_no_arithmetic_fault exampleTableC5w ⟨"Exit", 12⟩ (by decide)⟩

/-- Claim C1 (conservation): for a valid cap table (`common_shares > 0`)
and a positive exit valuation V, every distributed amount is accounted for
exactly once: the Phase 1 preference payouts net of the amounts refunded
by converting rounds, plus the Phase 3 pro-rata payouts to participating
rounds, plus the Phase 3 pro-rata payouts to converted rounds, plus the
common proceeds, sum to V exactly (exact rational arithmetic subsumes the
floating-point tolerance).  A converting round returns its recorded
preference and instead takes its Phase 3 pro-rata share, so the two
replacement terms appear on opposite sides of the ledger. -/
theorem c1_conservation (ct : CapTable) (s : ExitScenario)
    (hc : 0 < ct.common_shares) (_hv : 0 < s.exit_valuation) :
    prefPayoutTotal ct s.exit_valuation - refundTotal ct s.exit_valuation
      + participationPayoutTotal ct s.exit_valuation
      + conversionPayoutTotal ct s.exit_valuation
      + (calculate_scenario ct s).common_proceeds
      = s.exit_valuation := by
  set V := s.exit_valuation with hVdef
  have h1 : (scenarioPhase1 ct V).remaining + prefPayoutTotal ct V = V := by
    have h := phase1_remaining_add_history (sortedRounds ct.funding_rounds) (initPhase1 V)
    simpa [scenarioPhase1, runPhase1, prefPayoutTotal, initPhase1] using h
  have hpeq : (scenarioPhase1 ct V).participating
      = participants (sortedRounds ct.funding_rounds) := by
    have h := phase1_participating_eq (sortedRounds ct.funding_rounds) (initPhase1 V)
    simpa [scenarioPhase1, runPhase1, initPhase1] using h
  have hpos : 0 ≤ participatingShares ct V := by
    rw [participatingShares, hpeq]
    apply List.sum_nonneg
    intro x hx
    rw [List.mem_map] at hx
    rcases hx with ⟨p, hp, rfl⟩
    exact le_of_lt (participants_pos hp)
  have hconvpos : 0 ≤ convertedSharesTotal ct V := by
    rw [convertedSharesTotal]
    apply List.sum_nonneg
    intro x hx
    rw [List.mem_map] at hx
    rcases hx with ⟨e, he, rfl⟩
    exact le_of_lt (events_shares_pos he)
  have h2 : scenarioPhase2 ct V =
      { remaining := (scenarioPhase1 ct V).remaining + refundTotal ct V
        total_participating_shares :=
          ct.common_shares + participatingShares ct V + convertedSharesTotal ct V } :=
    scenarioPhase2_eq_totals ct V
  have hpool : 0 < (scenarioPhase2 ct V).total_participating_shares := by
    rw [h2]
    show 0 < ct.common_shares + participatingShares ct V + convertedSharesTotal ct V
    omega
  have hcp : (calculate_scenario ct s).common_proceeds
      = eligiblePrice ct V * (ct.common_shares : ℚ) := by
    rw [calculate_scenario, if_neg (by omega : ¬ct.common_shares ≤ 0)]
    show commonProceedsOf ct (scenarioPhase2 ct V) = _
    rw [commonProceedsOf, if_pos hpool]
    rfl
  have hpart : participationPayoutTotal ct V
      = eligiblePrice ct V * (participatingShares ct V : ℚ) := by
    rw [participationPayoutTotal, sum_map_mul_left_q, participatingShares, intCast_sum_map]
  have hconv : conversionPayoutTotal ct V
      = eligiblePrice ct V * (convertedSharesTotal ct V : ℚ) := by
    rw [conversionPayoutTotal, sum_map_mul_left_q, convertedSharesTotal, intCast_sum_map]
  have hprice : eligiblePrice ct V * ((scenarioPhase2 ct V).total_participating_shares : ℚ)
      = (scenarioPhase2 ct V).remaining := by
    rw [eligiblePrice]
    exact div_mul_cancel₀ _ (Int.cast_ne_zero.mpr (by omega))
  have hT2 : ((scenarioPhase2 ct V).total_participating_shares : ℚ)
      = (ct.common_shares : ℚ) + (participatingShares ct V : ℚ)
        + (convertedSharesTotal ct V : ℚ) := by
    rw [h2]
    show ((ct.common_shares + participatingShares ct V + convertedSharesTotal ct V : ℤ) : ℚ) = _
    push_cast
    ring
  have hR2 : (scenarioPhase2 ct V).remaining
      = (scenarioPhase1 ct V).remaining + refundTotal ct V := by
    rw [h2]
  have hPT : eligiblePrice ct V * (participatingShares ct V : ℚ)
      + eligiblePrice ct V * (convertedSharesTotal ct V : ℚ)
      + eligiblePrice ct V * (ct.common_shares : ℚ)
      = (scenarioPhase1 ct V).remaining + refundTotal ct V := by
    calc eligiblePrice ct V * (participatingShares ct V : ℚ)
          + eligiblePrice ct V * (convertedSharesTotal ct V : ℚ)
          + eligiblePrice ct V * (ct.common_shares : ℚ)
        = eligiblePrice ct V * ((ct.common_shares : ℚ) + (participatingShares ct V : ℚ)
            + (convertedSharesTotal ct V : ℚ)) := by ring
      _ = eligiblePrice ct V * ((scenarioPhase2 ct V).total_participating_shares : ℚ) := by
          rw [hT2]
      _ = (scenarioPhase2 ct V).remaining := hprice
      _ = (scenarioPhase1 ct V).remaining + refundTotal ct V := hR2
  rw [hcp, hpart, hconv]
  linarith [h1, hPT]

/-- Witness for claim C1 on a table where the Seed round converts: the
retained preference total is 0 (2 paid, 2 refunded), the converted round
takes 10 in Phase 3, common takes 40, and 0 + 10 + 40 = 50 = V. -/
theorem c1_conservation_witness :
    0 < exampleTableC1.common_shares ∧ (0:ℚ) < 50 ∧
    prefPayoutTotal exampleTableC1 50 - refundTotal exampleTableC1 50
      + participationPayoutTotal exampleTableC1 50
      + conversionPayoutTotal exampleTableC1 50
      + (calculate_scenario exampleTableC1 ⟨"Exit", 50⟩).common_proceeds = 50 :=
  ⟨by decide, by decide, c1_conservation exampleTableC1 ⟨"Exit", 50⟩ (by decide) (by decide)⟩

/-- Counterexample to claim C7: in `exampleTableC7` (participating
Series B with preference 50 above a small non-participating Series A with
preference 20), raising the exit valuation from 55 to 56 makes Series A's
conversion election flip off (`0.1*55 = 5.5 > 5` but `0.1*56 = 5.6 ≤ 6`),
so the employee option value DROPS from 2/5 to 0: option value is not a
non-decreasing function of exit valuation. -/
theorem c7_not_monotone :
    (55:ℚ) ≤ 56 ∧ (0:ℚ) < 55 ∧
    (calculate_scenario exampleTableC7 ⟨"Higher", 56⟩).option_value
      < (calculate_scenario exampleTableC7 ⟨"Lower", 55⟩).option_value := by
  refine ⟨by norm_num, by norm_num, ?_⟩
  have hsort : sortedRounds
      [(⟨"Series B", 10, 50, 1, true⟩ : FundingRound), ⟨"Series A", 10, 20, 1, false⟩]
      = [⟨"Series B", 10, 50, 1, true⟩, ⟨"Series A", 10, 20, 1, false⟩] := by decide
  norm_num [calculate_scenario, exampleTableC7, CapTable.common_shares,
    CapTable.total_preferred_shares, scenarioPhase2, scenarioPhase1, runPhase1, hsort,
    initPhase1, phase1Step, pymin, FundingRound.liquidation_preference, Function.update,
    participatingShares, phase2Step, commonProceedsOf, pricePerCommonShareOf,
    (show ("Series A":String) ≠ "Series B" by decide),
    (show ("Series B":String) ≠ "Series A" by decide)]

/-- Claim C7 as amended: with every active round participating (so that no
conversion election can flip), a non-negative option count, and a fixed
cap table, the total option value is a non-decreasing function of the exit
valuation. -/
theorem c7_option_value_monotone (ct : CapTable) (n₁ n₂ : String) (V₁ V₂ : ℚ)
    (hpart : ∀ r ∈ ct.funding_rounds,
      0 < r.shares_issued → 0 < r.capital_raised → r.is_participating = true)
    (hopt : 0 ≤ ct.your_options)
    (_hV : 0 < V₁) (hle : V₁ ≤ V₂) :
    (calculate_scenario ct ⟨n₁, V₁⟩).option_value
      ≤ (calculate_scenario ct ⟨n₂, V₂⟩).option_value := by
  by_cases hc : ct.common_shares ≤ 0
  · rw [calculate_scenario, calculate_scenario, if_pos hc, if_pos hc]
    exact le_refl 0
  · rw [calculate_scenario, calculate_scenario, if_neg hc, if_neg hc]
    show max 0 (pricePerCommonShareOf ct (scenarioPhase2 ct V₁) - ct.strike_price)
        * (ct.your_options : ℚ)
      ≤ max 0 (pricePerCommonShareOf ct (scenarioPhase2 ct V₂) - ct.strike_price)
        * (ct.your_options : ℚ)
    have hnoop : ∀ W : ℚ, scenarioPhase2 ct W =
        { remaining := (scenarioPhase1 ct W).remaining
          total_participating_shares := ct.common_shares + participatingShares ct W } := by
      intro W
      rw [scenarioPhase2]
      exact phase2_noop ct W (scenarioPhase1 ct W).payouts (sortedRounds ct.funding_rounds)
        (fun r hr => hpart r (mem_sortedRounds.mp hr)) _
    have hpeq : ∀ W : ℚ, (scenarioPhase1 ct W).participating
        = participants (sortedRounds ct.funding_rounds) := by
      intro W
      have h := phase1_participating_eq (sortedRounds ct.funding_rounds) (initPhase1 W)
      simpa [scenarioPhase1, runPhase1, initPhase1] using h
    have hps : participatingShares ct V₂ = participatingShares ct V₁ := by
      rw [participatingShares, participatingShares, hpeq V₁, hpeq V₂]
    have hpsnn : 0 ≤ participatingShares ct V₁ := by
      rw [participatingShares, hpeq V₁]
      apply List.sum_nonneg
      intro x hx
      rw [List.mem_map] at hx
      rcases hx with ⟨p, hp, rfl⟩
      exact le_of_lt (participants_pos hp)
    have hpool : 0 < ct.common_shares + participatingShares ct V₁ := by omega
    have hrem : (scenarioPhase1 ct V₁).remaining ≤ (scenarioPhase1 ct V₂).remaining := by
      rw [scenarioPhase1, scenarioPhase1, runPhase1, runPhase1]
      have hinit : (initPhase1 V₁).remaining ≤ (initPhase1 V₂).remaining := hle
      exact phase1_remaining_mono (sortedRounds ct.funding_rounds) hinit
    have hpps : ∀ W : ℚ, participatingShares ct W = participatingShares ct V₁ →
        pricePerCommonShareOf ct (scenarioPhase2 ct W)
          = (scenarioPhase1 ct W).remaining
            / ((ct.common_shares + participatingShares ct V₁ : ℤ) : ℚ) := by
      intro W hW
      rw [hnoop W, pricePerCommonShareOf, if_pos (show 0 < ct.common_shares by omega)]
      show (if 0 < ct.common_shares + participatingShares ct W then
          (scenarioPhase1 ct W).remaining
            / ((ct.common_shares + participatingShares ct W : ℤ) : ℚ) * (ct.common_shares : ℚ)
          else (scenarioPhase1 ct W).remaining) / (ct.common_shares : ℚ) = _
      rw [hW, if_pos hpool]
      exact mul_div_cancel_right₀ _ (Int.cast_ne_zero.mpr (by omega))
    rw [hpps V₁ rfl, hpps V₂ hps]
    have hpoolq : (0:ℚ) < ((ct.common_shares + participatingShares ct V₁ : ℤ) : ℚ) := by
      exact_mod_cast hpool
    have ho : (0:ℚ) ≤ (ct.your_options : ℚ) := by exact_mod_cast hopt
    apply mul_le_mul_of_nonneg_right _ ho
    apply max_le_max (le_refl 0)
    apply sub_le_sub_right
    exact (div_le_div_iff_of_pos_right hpoolq).mpr hrem

/-- Witness for the amended claim C7 at a table whose single active round
participates, with exit valuations 10 ≤ 20. -/
theorem c7_option_value_monotone_witness :
    (∀ r ∈ exampleTableC7w.funding_rounds,
      0 < r.shares_issued → 0 < r.capital_raised → r.is_participating = true) ∧
    0 ≤ exampleTableC7w.your_options ∧ (0:ℚ) < 10 ∧ (10:ℚ) ≤ 20 ∧
    (calculate_scenario exampleTableC7w ⟨"Low", 10⟩).option_value
      ≤ (calculate_scenario exampleTableC7w ⟨"High", 20⟩).option_value :=
  ⟨by decide, by decide, by decide, by decide,
    c7_option_value_monotone exampleTableC7w "Low" "High" 10 20 (by decide) (by decide)
      (by decide) (by decide)⟩
